import Mathlib

/-!
Verification of the RAG-Assistant answer-generation pipeline
(`backend/app/services/rag_service.py`, `backend/app/api/routes.py`,
`backend/app/api/models.py`) against its natural-language specification.

External capabilities (embedder, vector index, LLM generator, cross-encoder
reranker) are modelled as oracle functions supplied through an environment
record; every external invocation the Python code performs is recorded in an
explicit call log so that claims about which calls happen (and in which order)
become provable statements.  Scalar relevance scores are modelled as rationals
(the code manipulates them opaquely); the confidence computation, which applies
a logistic transform, is modelled over the reals.
-/

namespace RagAssistant

/-! ### Character and string helpers

The Python code uses `str.strip`, `str.lower`, substring containment (`in`),
`str[:200]` slicing, `"sep".join`, and `pathlib.Path(...).name`.  These are
modelled over `List Char` so that every definition reduces in the kernel. -/

/-- Whitespace test used by the model of Python `str.strip`. -/
def isSpaceChar (c : Char) : Bool :=
  c = ' ' || c = '\t' || c = '\n' || c = '\r'

/-- ASCII lower-casing of one character, the model of Python `str.lower`. -/
def lowerChar (c : Char) : Char :=
  if 'A' ≤ c ∧ c ≤ 'Z' then Char.ofNat (c.toNat + 32) else c

/-- Lower-case a character list. -/
def toLowerL (l : List Char) : List Char := l.map lowerChar

/-- Remove trailing whitespace (model of the right half of `str.strip`). -/
def dropTrailSpace (l : List Char) : List Char :=
  (l.reverse.dropWhile isSpaceChar).reverse

/-- Model of Python `str.strip`: drop leading and trailing whitespace. -/
def stripL (l : List Char) : List Char :=
  dropTrailSpace (l.dropWhile isSpaceChar)

/-- Model of Python `str.strip` on `String`. -/
def stripS (s : String) : String := ⟨stripL s.data⟩

/-- Model of Python substring containment `pat in s`. -/
def containsSub (s pat : String) : Bool := decide (pat.data <:+: s.data)

/-- Model of `pathlib.Path(s).name`: the segment after the last slash. -/
def basename (s : String) : String :=
  ⟨(s.data.reverse.takeWhile (fun c => c ≠ '/')).reverse⟩

/-- Model of the snippet construction `doc.page_content[:200] + "..."`. -/
def snippetOf (content : String) : String :=
  ⟨content.data.take 200⟩ ++ "..."

/-- Model of `"sep".join(parts)`. -/
def joinSep (sep : String) : List String → String
  | [] => ""
  | [s] => s
  | s :: rest => s ++ sep ++ joinSep sep rest

/-! ### Retrieved passages

A LangChain `Document` as the pipeline sees it: page content plus the
metadata keys the service reads (`source`, `page`, `relevance_score`),
each of which may be absent (`metadata.get` with a default). -/

/-- A retrieved passage: content plus the metadata fields the service reads. -/
structure Doc where
  content : String
  source : Option String := none
  page : Option Nat := none
  relevance_score : Option ℚ := none
deriving DecidableEq

/-- Model of `doc.metadata.get("relevance_score", 0.0)`. -/
def relScore (d : Doc) : ℚ := d.relevance_score.getD 0

/-- Model of `doc.metadata.get("source", "unknown")`. -/
def rawSource (d : Doc) : Option String := d.source

/-- De-duplication key of a passage: `(sourceId, page, content)`. -/
def passKey (d : Doc) : Option String × Option Nat × String :=
  (d.source, d.page, d.content)

/-! ### Descending insertion sort on relevance score

Used to model the reranker's `sorted(..., reverse=True)`. -/

/-- Insert a document into a list kept in non-increasing relevance order. -/
def insertDesc (d : Doc) : List Doc → List Doc
  | [] => [d]
  | x :: xs => if relScore x ≤ relScore d then d :: x :: xs else x :: insertDesc d xs

/-- Sort documents by non-increasing relevance score (insertion sort). -/
def sortDescRel : List Doc → List Doc
  | [] => []
  | x :: xs => insertDesc x (sortDescRel xs)

/-- The ordering proved on reranked output: each element's score is at least
every later element's score. -/
def scoreGE (a b : Doc) : Prop := relScore b ≤ relScore a

/-! ### External calls

The pipeline's suspension points, recorded as an explicit call log. -/

/-- One invocation of an external capability. -/
inductive ECall where
  | embed (text : String)
  | search (vector : List ℚ)
  | generate (prompt : String)
  | rerank (query content : String)
deriving DecidableEq

/-- Oracle functions standing in for the external capabilities: the
embedding model, the Chroma vector store, the Ollama chat model and the
cross-encoder.  The generator may fail (a raised exception is `.error`). -/
structure Env where
  embed : String → List ℚ
  search : Option (List (String × String)) → List ℚ → List Doc
  generate : String → Except String String
  rerankScore : String → String → ℚ

/-! ### PassageReranker

Modelled from the spec: the repository wires
`CrossEncoderReranker(model=self.cross_encoder, top_n=5)` into a
`ContextualCompressionRetriever` (`rag_service.py` lines 181-186); the
compressor itself lives in the LangChain library, not under `src/`.  Per
§4.3 of the spec it scores each passage with the Reranker, sorts
descending by the logit, keeps the top 5 and assigns
`relevanceScore = logit` on the kept passages; an empty passage set is
returned empty without invoking the Reranker. -/
def rerankDocs (scorer : String → String → ℚ) (query : String) (docs : List Doc) :
    List Doc × List ECall :=
  let scored := docs.map (fun d => { d with relevance_score := some (scorer query d.content) })
  ((sortDescRel scored).take 5, docs.map (fun d => ECall.rerank query d.content))

/-! ### QueryExpansion merge

Modelled from the spec: the repository delegates query expansion to
`MultiQueryRetriever.from_llm` (`rag_service.py` lines 174-179), whose
merge step lives in the LangChain library, not under `src/`.  Per §4.2 of
the spec the passage sets of the paraphrase searches are unioned,
de-duplicated by the key `(sourceId, page, content)`, keeping the highest
relevanceScore seen per duplicate. -/
def insertMax (d : Doc) : List Doc → List Doc
  | [] => [d]
  | x :: xs =>
    if passKey x = passKey d then
      (if relScore x ≤ relScore d then d else x) :: xs
    else x :: insertMax d xs

/-- Fold the de-duplicating insertion over a passage list. -/
def mergeInto (acc : List Doc) : List Doc → List Doc
  | [] => acc
  | d :: rest => mergeInto (insertMax d acc) rest

/-- Concatenate the per-paraphrase result lists. -/
def joinL : List (List Doc) → List Doc
  | [] => []
  | l :: rest => l ++ joinL rest

/-- Modelled from the spec (§4.2): union of the per-paraphrase passage
sets, de-duplicated by `(sourceId, page, content)` with the highest
relevanceScore retained per duplicate. -/
def mergePassages (lists : List (List Doc)) : List Doc :=
  mergeInto [] (joinL lists)

/-- Number of passages in `l` whose de-duplication key is `k`. -/
def countKey (k : Option String × Option Nat × String) (l : List Doc) : Nat :=
  l.countP (fun d => decide (passKey d = k))

/-- Key-uniqueness invariant maintained by the merge accumulator. -/
def KeyUnique (l : List Doc) : Prop :=
  ∀ k, countKey k l ≤ 1

/-- Boolean key-presence test. -/
def hasKey (k : Option String × Option Nat × String) (l : List Doc) : Bool :=
  l.any (fun d => decide (passKey d = k))

/-! ### Chat history and prompt rendering (`_setup_prompts`)

The service converts caller-supplied `{role, content}` dicts into LangChain
`HumanMessage`/`AIMessage` values, dropping unrecognized roles
(`generate_answer`, lines 245-252).  Prompt templates are rendered to a
single string handed to the generator oracle. -/

/-- A caller-supplied chat turn (`{"role": ..., "content": ...}`). -/
structure ChatMsg where
  role : String
  content : String
deriving DecidableEq

/-- A LangChain message. -/
inductive LCMsg where
  | human (content : String)
  | ai (content : String)
deriving DecidableEq

/-- Model of the history conversion loop in `generate_answer`. -/
def toLCHistory (h : List ChatMsg) : List LCMsg :=
  h.filterMap (fun m =>
    if m.role = "user" then some (LCMsg.human m.content)
    else if m.role = "assistant" then some (LCMsg.ai m.content)
    else none)

/-- Render a message list into prompt text. -/
def renderMsgs : List LCMsg → String
  | [] => ""
  | LCMsg.human c :: rest => "human: " ++ c ++ "\n" ++ renderMsgs rest
  | LCMsg.ai c :: rest => "ai: " ++ c ++ "\n" ++ renderMsgs rest

/-- Render a chat prompt template: system message, history placeholder,
human message. -/
def renderPrompt (system : String) (hist : List LCMsg) (human : String) : String :=
  system ++ "\n" ++ renderMsgs hist ++ "human: " ++ human

/-- The `contextualize_q_system_prompt` of `_setup_prompts`. -/
def contextualizeSystemPrompt : String :=
  "Given a chat history and the latest user question " ++
  "which might reference context in the chat history, " ++
  "formulate a standalone question which can be understood " ++
  "without the chat history. Do NOT answer the question, " ++
  "just reformulate it if needed and otherwise return it as is."

/-- The QA `system_prompt` of `_setup_prompts`, parameterized by the stuffed
context text. -/
def qaSystemPrompt (context : String) : String :=
  "You are a helpful assistant for a knowledge base. " ++
  "Use the following pieces of retrieved context to answer " ++
  "the question. Think step by step to reason through the " ++
  "information provided. If you do not know the answer, say that you " ++
  "do not have enough information. Use three sentences maximum " ++
  "and keep the answer concise.\n\nContext:\n" ++ context

/-- The `hyde_system_prompt` of `_setup_prompts`. -/
def hydeSystemPrompt : String :=
  "You are an expert at generating hypothetical documents. " ++
  "Given a question, generate a concise paragraph that would answer the question. " ++
  "Do not include any explanations, just the hypothetical answer content."

/-- The `validation_system_prompt` of `_setup_prompts`. -/
def validationSystemPrompt : String :=
  "You are a fact-checking assistant. Given the following context and an answer, " ++
  "determine if the answer is supported by the context. " ++
  "Respond with only YES or NO."

/-- The `simple_system_prompt` of `_setup_prompts` (no-RAG path). -/
def simpleSystemPrompt : String :=
  "You are a helpful assistant. Answer the question of the user to the best of your ability."

/-- The full prompt sent by the HyDE chain for a query. -/
def hydePromptText (query : String) : String :=
  renderPrompt hydeSystemPrompt [] query

/-- The prompt used by `MultiQueryRetriever` to produce paraphrases. -/
def multiQueryPromptText (query : String) : String :=
  renderPrompt
    ("You are an AI language model assistant. Your task is to generate different versions " ++
     "of the given user question to retrieve relevant documents from a vector database.")
    [] query

/-- The validation prompt of `validate_answer` (context and answer stuffed
into the human message). -/
def validationPromptText (context answer : String) : String :=
  validationSystemPrompt ++ "\nhuman: Context:\n" ++ context ++ "\n\nAnswer:\n" ++ answer

/-! ### Retrieval strategies (`_get_rag_chain`, lines 150-179)

The base retriever is the Chroma vector store as a retriever; modelled from
the spec (§4.2 Plain): embed the query, then one diversity-aware vector
search (`k=10, fetch_k=20`, optional metadata filter), both external calls. -/

/-- Plain retrieval: one Embedder call on the query text, one VectorIndex
search with the resulting vector. -/
def baseRetrieve (env : Env) (filters : Option (List (String × String))) (q : String) :
    List Doc × List ECall :=
  let v := env.embed q
  (env.search filters v, [ECall.embed q, ECall.search v])

/-- HyDE retrieval (`rag_service.py` lines 162-172): the chain
`hyde_prompt | llm | StrOutputParser() | base_retriever` — one Generator
call producing a hypothetical paragraph, then Plain retrieval on that
paragraph. -/
def hydeRetrieve (env : Env) (filters : Option (List (String × String))) (q : String) :
    Except String (List Doc) × List ECall :=
  match env.generate (hydePromptText q) with
  | Except.error e => (Except.error e, [ECall.generate (hydePromptText q)])
  | Except.ok para =>
    let r := baseRetrieve env filters para
    (Except.ok r.1, ECall.generate (hydePromptText q) :: r.2)

/-- Concatenate call logs. -/
def joinECalls : List (List ECall) → List ECall
  | [] => []
  | l :: rest => l ++ joinECalls rest

/-- Query-expansion retrieval (`rag_service.py` lines 174-179):
`MultiQueryRetriever.from_llm` — one Generator call producing paraphrases
(one per non-empty line), Plain retrieval per paraphrase, results merged.
The merge is modelled from the spec (§4.2). -/
def qeRetrieve (env : Env) (filters : Option (List (String × String))) (q : String) :
    Except String (List Doc) × List ECall :=
  match env.generate (multiQueryPromptText q) with
  | Except.error e => (Except.error e, [ECall.generate (multiQueryPromptText q)])
  | Except.ok out =>
    let queries := ((stripS out).splitOn "\n").filter (fun s => s ≠ "")
    let results := queries.map (fun qq => baseRetrieve env filters qq)
    (Except.ok (mergePassages (results.map (fun r => r.1))),
     ECall.generate (multiQueryPromptText q) :: joinECalls (results.map (fun r => r.2)))

/-- Strategy dispatch of `_get_rag_chain`: HyDE takes precedence over query
expansion (the `if`/`elif` at lines 162-179). -/
def retrieveByStrategy (env : Env) (filters : Option (List (String × String)))
    (enable_query_expansion enable_hyde : Bool) (q : String) :
    Except String (List Doc) × List ECall :=
  if enable_hyde then hydeRetrieve env filters q
  else if enable_query_expansion then qeRetrieve env filters q
  else
    let r := baseRetrieve env filters q
    (Except.ok r.1, r.2)

/-! ### GroundingValidator (`validate_answer`, lines 206-225) -/

/-- The concatenated context text `"\n\n".join(doc.page_content ...)`. -/
def contextText (docs : List Doc) : String :=
  joinSep "\n\n" (docs.map (fun d => d.content))

/-- Model of `RAGService.validate_answer`: short-circuits to `false` on empty
context without a Generator call; otherwise one Generator call, returning
whether the stripped, lower-cased response contains `"yes"`; a Generator
failure yields `false` instead of propagating (the result type is `Bool`,
not `Except`). -/
def validate_answer (env : Env) (answer : String) (context : List Doc) :
    Bool × List ECall :=
  if context = [] then (false, [])
  else
    match env.generate (validationPromptText (contextText context) answer) with
    | Except.ok response =>
      (decide (['y', 'e', 's'] <:+: toLowerL (stripL response.data)),
       [ECall.generate (validationPromptText (contextText context) answer)])
    | Except.error _ =>
      (false, [ECall.generate (validationPromptText (contextText context) answer)])

/-! ### ConfidenceScorer (`_calculate_confidence`, lines 196-204)

The logistic transform forces real arithmetic; these definitions are the
only noncomputable part of the development. -/

/-- The relevance score of a passage, as a real number. -/
noncomputable def relScoreR (d : Doc) : ℝ := (relScore d : ℝ)

/-- The logistic transform `1 / (1 + e^(-s))`. -/
noncomputable def sigmoid (x : ℝ) : ℝ := 1 / (1 + Real.exp (-x))

/-- Rounding to two decimal places, `round(x, 2)`. -/
noncomputable def round2 (x : ℝ) : ℝ := (round (x * 100) : ℤ) / 100

/-- Model of `RAGService._calculate_confidence`: `0.0` for an empty document
list, otherwise the average of the sigmoids of the relevance scores, rounded
to two decimals. -/
noncomputable def calculate_confidence (docs : List Doc) : ℝ :=
  if docs = [] then 0
  else round2 (((docs.map (fun d => sigmoid (relScoreR d))).sum) / (docs.length : ℝ))

/-! ### Response-boundary source records -/

/-- A source item as built by the synchronous `generate_answer`
(lines 281-290): basename, page, citation, truncated snippet, relevance
score. -/
structure SyncSource where
  source : String
  page : Nat
  citation : String
  snippet : String
  relevance_score : ℚ
deriving DecidableEq

/-- Model of the per-document source construction in `generate_answer`. -/
def syncSourceOf (d : Doc) : SyncSource :=
  let name := basename (d.source.getD "unknown")
  let pageNum := d.page.getD 0
  { source := name
    page := pageNum
    citation := name ++ " (p. " ++ toString pageNum ++ ")"
    snippet := snippetOf d.content
    relevance_score := relScore d }

/-- A source item as built by `generate_answer_stream` (lines 337-345):
raw stored source path, page, snippet — no citation, no relevance score. -/
structure StreamSource where
  source : String
  page : Nat
  snippet : String
deriving DecidableEq

/-- Model of the per-document source construction in
`generate_answer_stream`. -/
def streamSourceOf (d : Doc) : StreamSource :=
  { source := d.source.getD "unknown"
    page := d.page.getD 0
    snippet := snippetOf d.content }

/-! ### The synchronous `Ask` operation (`generate_answer`, lines 227-313) -/

/-- The dictionary returned by `generate_answer`. -/
structure AnswerDict where
  answer : String
  sources : List SyncSource
  confidence : ℝ
  is_grounded : Bool
  contexts : List String

/-- Model of the `except` clause at lines 306-313: connection failures are
re-worded, everything else is wrapped as `RAG generation failed`. -/
def wrapError (e : String) : String :=
  if containsSub e "Connect call failed" || containsSub e "Cannot connect to host" then
    "Connection to Ollama failed. Ensure Ollama is running and accessible."
  else "RAG generation failed: " ++ e

/-- Model of `RAGService.generate_answer`.  Returns the result (or the
wrapped raised error) together with the log of external calls performed.
The `use_rag = false` branch invokes only the simple chain; the RAG branch
runs reformulation (history-aware retriever — skipped on empty history),
the selected retrieval strategy, reranking, answer generation, confidence
scoring and grounding validation. -/
noncomputable def generate_answer (env : Env) (query : String)
    (chat_history : List ChatMsg) (filters : Option (List (String × String)))
    (enable_query_expansion enable_hyde use_rag : Bool) :
    Except String AnswerDict × List ECall :=
  let lc := toLCHistory chat_history
  if use_rag = false then
    let p := renderPrompt simpleSystemPrompt [] query
    match env.generate p with
    | Except.ok answer =>
      (Except.ok { answer := answer, sources := [], confidence := 0,
                   is_grounded := false, contexts := [] }, [ECall.generate p])
    | Except.error e => (Except.error (wrapError e), [ECall.generate p])
  else
    let reformulated : Except String String × List ECall :=
      if lc = [] then (Except.ok query, [])
      else
        let p := renderPrompt contextualizeSystemPrompt lc query
        match env.generate p with
        | Except.ok s => (Except.ok s, [ECall.generate p])
        | Except.error e => (Except.error e, [ECall.generate p])
    match reformulated with
    | (Except.error e, log₁) => (Except.error (wrapError e), log₁)
    | (Except.ok sq, log₁) =>
      let retr := retrieveByStrategy env filters enable_query_expansion enable_hyde sq
      match retr.1 with
      | Except.error e => (Except.error (wrapError e), log₁ ++ retr.2)
      | Except.ok docs =>
        let reranked := rerankDocs env.rerankScore sq docs
        let context_docs := reranked.1
        let qa := renderPrompt (qaSystemPrompt (contextText context_docs)) lc query
        match env.generate qa with
        | Except.error e =>
          (Except.error (wrapError e), log₁ ++ retr.2 ++ reranked.2 ++ [ECall.generate qa])
        | Except.ok answer =>
          let validated := validate_answer env answer context_docs
          (Except.ok { answer := answer
                       sources := context_docs.map syncSourceOf
                       confidence := calculate_confidence context_docs
                       is_grounded := validated.1
                       contexts := context_docs.map (fun d => d.content) },
           log₁ ++ retr.2 ++ reranked.2 ++ [ECall.generate qa] ++ validated.2)

/-! ### The HTTP `/ask` endpoint (`routes.py` lines 49-60, `models.py`
lines 11-15) -/

/-- The `AskRequest` pydantic model: exactly these four fields. -/
structure AskRequest where
  query : String
  conversation_id : Option String := none
  enable_query_expansion : Bool := false
  enable_hyde : Bool := false
deriving DecidableEq

/-- The raw JSON body of a request, before validation: each field may be
absent. -/
structure RawAskRequest where
  query : Option String := none
  conversation_id : Option String := none
  enable_query_expansion : Option Bool := none
  enable_hyde : Option Bool := none

/-- Modelled from the spec (§7): request-model validation performed by the
framework (pydantic) before the handler runs.  `query` is a required field
with no further constraint — a missing field is a `ValidationError`, any
string (including the empty string) passes. -/
def parseAskRequest (raw : RawAskRequest) : Except String AskRequest :=
  match raw.query with
  | none => Except.error "ValidationError: field required: query"
  | some q =>
    Except.ok { query := q
                conversation_id := raw.conversation_id
                enable_query_expansion := raw.enable_query_expansion.getD false
                enable_hyde := raw.enable_hyde.getD false }

/-- Model of the `ask_question` handler body: it invokes `generate_answer`
with only the query and the two strategy flags — chat history, filters and
`use_rag` are left at their defaults (`[]`, `None`, `True`). -/
noncomputable def ask_question_handler (env : Env) (req : AskRequest) :
    Except String AnswerDict × List ECall :=
  let r := generate_answer env req.query [] none
    req.enable_query_expansion req.enable_hyde true
  (match r.1 with
   | Except.ok d => Except.ok d
   | Except.error e => Except.error ("HTTP 500: " ++ e), r.2)

/-- Model of the `/ask` route: framework validation, then the handler. -/
noncomputable def ask_question (env : Env) (raw : RawAskRequest) :
    Except String AnswerDict × List ECall :=
  match parseAskRequest raw with
  | Except.error e => (Except.error e, [])
  | Except.ok req => ask_question_handler env req

/-! ### The streaming operation (`generate_answer_stream`, lines 315-352)

The underlying `rag_chain.astream` (LangChain) yields partial output
dictionaries; modelled from the spec as a list of chunks, each possibly
carrying a `context` entry and/or an `answer` entry, optionally followed by
a raised error.  The loop body and `except` clause are in `src/`. -/

/-- One chunk yielded by `rag_chain.astream`. -/
structure Chunk where
  context : Option (List Doc) := none
  answer : Option String := none
deriving DecidableEq

/-- The observable behaviour of one `astream` run: the chunks it yields, and
the error it raises afterwards, if any.  Chain construction failures are the
special case `chunks = []`. -/
structure ChainStream where
  chunks : List Chunk
  failure : Option String := none

/-- An event emitted by `generate_answer_stream` (its `type` field is one of
`sources`, `token`, `error`); `done` is the spec's terminal `StreamEvent`
variant, which the code never emits. -/
inductive StreamEvent where
  | sources (data : List StreamSource)
  | token (data : String)
  | error (data : String)
  | done
deriving DecidableEq

/-- Events produced by the loop body for one chunk: a `sources` event if the
chunk has a `context` entry, then a `token` event if it has an `answer`
entry. -/
def chunkEvents (c : Chunk) : List StreamEvent :=
  (match c.context with
   | some docs => [StreamEvent.sources (docs.map streamSourceOf)]
   | none => []) ++
  (match c.answer with
   | some t => [StreamEvent.token t]
   | none => [])

/-- Concatenated events of all yielded chunks. -/
def chunksEvents : List Chunk → List StreamEvent
  | [] => []
  | c :: rest => chunkEvents c ++ chunksEvents rest

/-- Model of `RAGService.generate_answer_stream`: the events of the yielded
chunks, followed by a single `error` event iff the underlying stream
raised. -/
def streamEvents (st : ChainStream) : List StreamEvent :=
  chunksEvents st.chunks ++
  (match st.failure with
   | some e => [StreamEvent.error e]
   | none => [])

/-- Recognizers for event kinds. -/
def isSourcesEvent : StreamEvent → Bool
  | StreamEvent.sources _ => true
  | _ => false

def isTokenEvent : StreamEvent → Bool
  | StreamEvent.token _ => true
  | _ => false

def isErrorEvent : StreamEvent → Bool
  | StreamEvent.error _ => true
  | _ => false

/-- Whether a chunk carries a `context` entry. -/
def hasCtx (c : Chunk) : Bool := c.context.isSome

/-- Well-formedness of the chain's chunk order: no chunk carrying an
`answer` entry is followed by a chunk carrying a `context` entry. -/
def ctxBeforeAns : List Chunk → Bool
  | [] => true
  | c :: rest =>
    (if c.answer.isSome then rest.all (fun x => x.context.isNone) else true) &&
    ctxBeforeAns rest

/-- No `sources` event strictly after a `token` event. -/
def noSourcesAfterToken : List StreamEvent → Bool
  | [] => true
  | e :: rest =>
    (if isTokenEvent e then rest.all (fun x => !isSourcesEvent x) else true) &&
    noSourcesAfterToken rest

/-! ### Concrete instances used to evaluate the definitions -/

/-- A concrete environment whose generator always answers `"YES"`. -/
def okEnv : Env where
  embed := fun _ => [(1 : ℚ)]
  search := fun _ _ => []
  generate := fun _ => Except.ok "YES"
  rerankScore := fun _ _ => 0

/-- A concrete passage with a relevance score of `1`. -/
def mergeDocA : Doc :=
  { content := "t", source := some "a.pdf", page := some 1, relevance_score := some 1 }

/-- The same passage key as `mergeDocA` with a relevance score of `3`. -/
def mergeDocB : Doc :=
  { content := "t", source := some "a.pdf", page := some 1, relevance_score := some 3 }

/-- A well-formed chain stream: one context chunk, then one answer chunk. -/
def streamWF : ChainStream :=
  { chunks := [{ context := some [{ content := "c", source := some "a.pdf", page := some 1 }] },
               { answer := some "Hello" }],
    failure := none }

/-! ## Proofs -/

theorem mem_insertDesc {y d : Doc} : ∀ {l : List Doc}, y ∈ insertDesc d l → y = d ∨ y ∈ l := by
  intro l
  induction l with
  | nil => intro h; simp [insertDesc] at h; exact Or.inl h
  | cons x xs ih =>
    intro h
    simp only [insertDesc] at h
    by_cases hc : relScore x ≤ relScore d
    · simp [hc] at h
      rcases h with h | h | h
      · exact Or.inl h
      · exact Or.inr (by simp [h])
      · exact Or.inr (by simp [h])
    · simp [hc] at h
      rcases h with h | h
      · exact Or.inr (by simp [h])
      · rcases ih h with h' | h'
        · exact Or.inl h'
        · exact Or.inr (by simp [h'])

theorem mem_sortDescRel {y : Doc} : ∀ {l : List Doc}, y ∈ sortDescRel l → y ∈ l := by
  intro l
  induction l with
  | nil => intro h; simp [sortDescRel] at h
  | cons x xs ih =>
    intro h
    simp only [sortDescRel] at h
    rcases mem_insertDesc h with h' | h'
    · simp [h']
    · exact List.mem_cons_of_mem _ (ih h')

theorem pairwise_insertDesc {d : Doc} : ∀ {l : List Doc},
    l.Pairwise scoreGE → (insertDesc d l).Pairwise scoreGE := by
  intro l
  induction l with
  | nil => intro _; simp [insertDesc, scoreGE]
  | cons x xs ih =>
    intro h
    rcases List.pairwise_cons.mp h with ⟨hx, hxs⟩
    simp only [insertDesc]
    by_cases hc : relScore x ≤ relScore d
    · simp only [if_pos hc]
      refine List.pairwise_cons.mpr ⟨?_, h⟩
      intro b hb
      rcases List.mem_cons.mp hb with hb | hb
      · subst hb; exact hc
      · exact le_trans (hx b hb) hc
    · simp only [if_neg hc]
      refine List.pairwise_cons.mpr ⟨?_, ih hxs⟩
      intro b hb
      rcases mem_insertDesc hb with hb | hb
      · subst hb; exact le_of_lt (lt_of_not_le hc)
      · exact hx b hb

theorem pairwise_sortDescRel : ∀ (l : List Doc), (sortDescRel l).Pairwise scoreGE := by
  intro l
  induction l with
  | nil => simp [sortDescRel]
  | cons x xs ih => exact pairwise_insertDesc ih

theorem countKey_insertMax (d : Doc) (k : Option String × Option Nat × String) :
    ∀ (acc : List Doc), countKey k (insertMax d acc) =
      if passKey d = k then (if countKey k acc = 0 then 1 else countKey k acc)
      else countKey k acc := by
  intro acc
  induction acc with
  | nil =>
    by_cases hd : passKey d = k <;> simp [insertMax, countKey, List.countP_cons, hd]
  | cons x xs ih =>
    simp only [insertMax]
    by_cases hx : passKey x = passKey d
    · simp only [if_pos hx]
      by_cases hd : passKey d = k
      · have hxk : passKey x = k := hx.trans hd
        by_cases hs : relScore x ≤ relScore d <;>
          simp [hs, countKey, List.countP_cons, hd, hxk, Nat.succ_ne_zero]
      · have hxk : ¬ passKey x = k := fun h => hd (hx.symm.trans h)
        by_cases hs : relScore x ≤ relScore d <;>
          simp [hs, countKey, List.countP_cons, hd, hxk]
    · simp only [if_neg hx]
      simp only [countKey, List.countP_cons] at ih ⊢
      rw [ih]
      by_cases hd : passKey d = k
      · have hxk : ¬ passKey x = k := fun h => hx (h.trans hd.symm)
        simp [hd, hxk]
      · simp [hd]

theorem keyUnique_nil : KeyUnique [] := by
  intro k; simp [countKey]

theorem keyUnique_insertMax {acc : List Doc} (d : Doc) (h : KeyUnique acc) :
    KeyUnique (insertMax d acc) := by
  intro k
  rw [countKey_insertMax]
  by_cases hd : passKey d = k
  · simp only [if_pos hd]
    by_cases h0 : countKey k acc = 0
    · simp [h0]
    · simpa [h0] using h k
  · simpa [hd] using h k

theorem mem_insertMax {y d : Doc} : ∀ {acc : List Doc}, y ∈ insertMax d acc → y = d ∨ y ∈ acc := by
  intro acc
  induction acc with
  | nil => intro h; simp [insertMax] at h; exact Or.inl h
  | cons x xs ih =>
    intro h
    simp only [insertMax] at h
    by_cases hx : passKey x = passKey d
    · simp only [if_pos hx] at h
      by_cases hs : relScore x ≤ relScore d
      · simp only [if_pos hs] at h
        rcases List.mem_cons.mp h with h | h
        · exact Or.inl h
        · exact Or.inr (List.mem_cons_of_mem _ h)
      · simp only [if_neg hs] at h
        rcases List.mem_cons.mp h with h | h
        · exact Or.inr (by simp [h])
        · exact Or.inr (List.mem_cons_of_mem _ h)
    · simp only [if_neg hx] at h
      rcases List.mem_cons.mp h with h | h
      · exact Or.inr (by simp [h])
      · rcases ih h with h' | h'
        · exact Or.inl h'
        · exact Or.inr (List.mem_cons_of_mem _ h')

theorem mem_mergeInto {y : Doc} : ∀ {l acc : List Doc}, y ∈ mergeInto acc l → y ∈ acc ∨ y ∈ l := by
  intro l
  induction l with
  | nil => intro acc h; exact Or.inl h
  | cons d rest ih =>
    intro acc h
    rcases ih h with h' | h'
    · rcases mem_insertMax h' with h'' | h''
      · exact Or.inr (by simp [h''])
      · exact Or.inl h''
    · exact Or.inr (List.mem_cons_of_mem _ h')

/-- With unique keys, two same-key members of a list are equal. -/
theorem keyUnique_eq_of_mem {acc : List Doc} (h : KeyUnique acc) {x y : Doc}
    (hx : x ∈ acc) (hy : y ∈ acc) (hk : passKey x = passKey y) : x = y := by
  by_contra hne
  rcases List.append_of_mem hx with ⟨s, t, rfl⟩
  have hy' : y ∈ s ∨ y ∈ t := by
    rcases List.mem_append.mp hy with h' | h'
    · exact Or.inl h'
    · rcases List.mem_cons.mp h' with h'' | h''
      · exact absurd h''.symm hne
      · exact Or.inr h''
  have hcount := h (passKey x)
  rw [countKey, List.countP_append, List.countP_cons] at hcount
  simp at hcount
  have hyc : 1 ≤ List.countP (fun d => decide (passKey d = passKey x)) s ∨
      1 ≤ List.countP (fun d => decide (passKey d = passKey x)) t := by
    rcases hy' with h' | h'
    · exact Or.inl (List.countP_pos_iff.mpr ⟨y, h', by simp [hk]⟩)
    · exact Or.inr (List.countP_pos_iff.mpr ⟨y, h', by simp [hk]⟩)
  rcases hyc with h' | h' <;> omega

/-- Dominance: after inserting `d`, some element of the result with the same
key bounds both `d` and each old element of the same key. -/
theorem insertMax_dominates (d : Doc) : ∀ (acc : List Doc) (x : Doc),
    (x ∈ acc ∨ x = d) →
    ∃ z ∈ insertMax d acc, passKey z = passKey x ∧ relScore x ≤ relScore z := by
  intro acc
  induction acc with
  | nil =>
    intro x hx
    rcases hx with hx | hx
    · simp at hx
    · exact ⟨d, by simp [insertMax], by rw [hx], le_of_eq (by rw [hx])⟩
  | cons a as ih =>
    intro x hx
    simp only [insertMax]
    by_cases ha : passKey a = passKey d
    · by_cases hs : relScore a ≤ relScore d
      · simp only [if_pos ha, if_pos hs]
        rcases hx with hx | hx
        · rcases List.mem_cons.mp hx with hx | hx
          · exact ⟨d, by simp, by rw [hx, ha], le_trans (le_of_eq (by rw [hx])) hs⟩
          · exact ⟨x, List.mem_cons_of_mem _ hx, rfl, le_refl _⟩
        · exact ⟨d, by simp, by rw [hx], le_of_eq (by rw [hx])⟩
      · simp only [if_pos ha, if_neg hs]
        have hds : relScore d ≤ relScore a := le_of_lt (lt_of_not_le hs)
        rcases hx with hx | hx
        · rcases List.mem_cons.mp hx with hx | hx
          · exact ⟨a, by simp, by rw [hx], le_of_eq (by rw [hx])⟩
          · exact ⟨x, List.mem_cons_of_mem _ hx, rfl, le_refl _⟩
        · exact ⟨a, by simp, by rw [hx, ha], le_trans (le_of_eq (by rw [hx])) hds⟩
    · simp only [if_neg ha]
      rcases hx with hx | hx
      · rcases List.mem_cons.mp hx with hx | hx
        · exact ⟨a, by simp, by rw [hx], le_of_eq (by rw [hx])⟩
        · rcases ih x (Or.inl hx) with ⟨z, hz, hzk, hzs⟩
          exact ⟨z, List.mem_cons_of_mem _ hz, hzk, hzs⟩
      · rcases ih x (Or.inr hx) with ⟨z, hz, hzk, hzs⟩
        exact ⟨z, List.mem_cons_of_mem _ hz, hzk, hzs⟩

/-- Every element of the merge result bounds all same-key inputs. -/
theorem mergeInto_max : ∀ (l acc : List Doc), KeyUnique acc →
    ∀ y ∈ mergeInto acc l, ∀ x, (x ∈ acc ∨ x ∈ l) → passKey x = passKey y →
      relScore x ≤ relScore y := by
  intro l
  induction l with
  | nil =>
    intro acc hacc y hy x hx hk
    rcases hx with hx | hx
    · exact le_of_eq (congrArg relScore (keyUnique_eq_of_mem hacc hx hy hk))
    · simp at hx
  | cons d rest ih =>
    intro acc hacc y hy x hx hk
    have hacc' := keyUnique_insertMax d hacc
    have step : ∀ x', (x' ∈ insertMax d acc ∨ x' ∈ rest) → passKey x' = passKey y →
        relScore x' ≤ relScore y := fun x' h1 h2 => ih (insertMax d acc) hacc' y hy x' h1 h2
    rcases hx with hx | hx
    · rcases insertMax_dominates d acc x (Or.inl hx) with ⟨z, hz, hzk, hzs⟩
      exact le_trans hzs (step z (Or.inl hz) (hzk.trans hk))
    · rcases List.mem_cons.mp hx with hx | hx
      · rcases insertMax_dominates d acc x (Or.inr hx) with ⟨z, hz, hzk, hzs⟩
        exact le_trans hzs (step z (Or.inl hz) (hzk.trans hk))
      · exact step x (Or.inr hx) hk

theorem countKey_mergeInto (k : Option String × Option Nat × String) :
    ∀ (l acc : List Doc), KeyUnique acc →
      countKey k (mergeInto acc l) =
        if countKey k acc = 0 then (if hasKey k l then 1 else 0) else 1 := by
  intro l
  induction l with
  | nil =>
    intro acc hacc
    simp only [mergeInto, hasKey, List.any_nil]
    by_cases h0 : countKey k acc = 0
    · simp [h0]
    · have := hacc k
      rw [if_neg h0]
      omega
  | cons d rest ih =>
    intro acc hacc
    have hacc' := keyUnique_insertMax d hacc
    show countKey k (mergeInto (insertMax d acc) rest) = _
    rw [ih (insertMax d acc) hacc', countKey_insertMax]
    by_cases hd : passKey d = k
    · simp only [if_pos hd]
      by_cases h0 : countKey k acc = 0
      · simp [h0, hasKey, List.any_cons, hd]
      · simp [h0, hasKey, List.any_cons, hd]
    · simp only [if_neg hd]
      by_cases h0 : countKey k acc = 0
      · simp [h0, hasKey, List.any_cons, hd]
      · simp [h0]

theorem sigmoid_pos (x : ℝ) : 0 < sigmoid x := by
  unfold sigmoid
  have h : (0 : ℝ) < 1 + Real.exp (-x) := by positivity
  positivity

theorem sigmoid_le_one (x : ℝ) : sigmoid x ≤ 1 := by
  unfold sigmoid
  rw [div_le_one (by positivity)]
  have h := (Real.exp_pos (-x)).le
  linarith

theorem sum_sigmoid_nonneg (docs : List Doc) :
    0 ≤ ((docs.map (fun d => sigmoid (relScoreR d))).sum) := by
  induction docs with
  | nil => simp
  | cons d ds ih =>
    simp only [List.map_cons, List.sum_cons]
    exact add_nonneg (sigmoid_pos _).le ih

theorem sum_sigmoid_le_length (docs : List Doc) :
    ((docs.map (fun d => sigmoid (relScoreR d))).sum) ≤ (docs.length : ℝ) := by
  induction docs with
  | nil => simp
  | cons d ds ih =>
    simp only [List.map_cons, List.sum_cons, List.length_cons]
    push_cast
    have := sigmoid_le_one (relScoreR d)
    linarith

theorem roundMonoR {x y : ℝ} (h : x ≤ y) : round x ≤ round y := by
  rw [round_eq, round_eq]
  exact Int.floor_mono (by linarith)

theorem round2_mem_unit {x : ℝ} (h0 : 0 ≤ x) (h1 : x ≤ 1) :
    0 ≤ round2 x ∧ round2 x ≤ 1 := by
  have hl : round (0 : ℝ) ≤ round (x * 100) := roundMonoR (by nlinarith)
  have hu : round (x * 100) ≤ round ((100 : ℕ) : ℝ) := roundMonoR (by push_cast; nlinarith)
  rw [round_zero] at hl
  rw [round_natCast] at hu
  unfold round2
  refine ⟨div_nonneg ?_ (by norm_num), ?_⟩
  · exact_mod_cast hl
  · rw [div_le_one (by norm_num : (0 : ℝ) < 100)]
    exact_mod_cast hu

/-- C1: for every passage list, `_calculate_confidence` returns the average
of `1 / (1 + e^(-logit))` over the passages' relevance scores, rounded to
two decimal places, which lies in `[0, 1]`; on the empty list it returns
exactly `0.0` with no division performed. -/
theorem confidence_in_unit_interval :
    calculate_confidence [] = 0 ∧
    (∀ (d : Doc) (ds : List Doc),
      calculate_confidence (d :: ds) =
        round2 ((((d :: ds).map (fun x => sigmoid (relScoreR x))).sum) /
          (((d :: ds).length : ℕ) : ℝ))) ∧
    (∀ docs : List Doc, 0 ≤ calculate_confidence docs ∧ calculate_confidence docs ≤ 1) := by
  refine ⟨by simp [calculate_confidence], ?_, ?_⟩
  · intro d ds
    simp [calculate_confidence]
  · intro docs
    by_cases h : docs = []
    · simp [calculate_confidence, h]
    · have hlen : (0 : ℝ) < (docs.length : ℝ) := by
        have := List.length_pos.mpr h
        exact_mod_cast this
      have havg0 : 0 ≤ ((docs.map (fun d => sigmoid (relScoreR d))).sum) / (docs.length : ℝ) :=
        div_nonneg (sum_sigmoid_nonneg docs) hlen.le
      have havg1 : ((docs.map (fun d => sigmoid (relScoreR d))).sum) / (docs.length : ℝ) ≤ 1 :=
        (div_le_one hlen).mpr (sum_sigmoid_le_length docs)
      have := round2_mem_unit havg0 havg1
      simpa [calculate_confidence, h] using this

/-- Unfolding of the `use_rag = false` branch of `generate_answer`. -/
theorem generate_answer_no_rag (env : Env) (query : String) (chat_history : List ChatMsg)
    (filters : Option (List (String × String))) (eqe ehy : Bool) :
    generate_answer env query chat_history filters eqe ehy false =
      (match env.generate (renderPrompt simpleSystemPrompt [] query) with
       | Except.ok answer =>
         (Except.ok { answer := answer, sources := [], confidence := 0,
                      is_grounded := false, contexts := [] },
          [ECall.generate (renderPrompt simpleSystemPrompt [] query)])
       | Except.error e =>
         (Except.error (wrapError e),
          [ECall.generate (renderPrompt simpleSystemPrompt [] query)])) := rfl

/-- C2: for every query and chat history, `generate_answer` with
`use_rag = false` performs exactly one external call — the direct simple-chain
generation — so no retrieval, reranking or grounding-validation call is made,
and any returned result has `sources = []`, `confidence = 0.0` and
`is_grounded = false`. -/
theorem no_rag_bypass_shape (env : Env) (query : String) (chat_history : List ChatMsg)
    (filters : Option (List (String × String))) (eqe ehy : Bool) :
    (generate_answer env query chat_history filters eqe ehy false).2 =
      [ECall.generate (renderPrompt simpleSystemPrompt [] query)] ∧
    ∀ r, (generate_answer env query chat_history filters eqe ehy false).1 = Except.ok r →
      r.sources = [] ∧ r.confidence = 0 ∧ r.is_grounded = false := by
  rw [generate_answer_no_rag]
  cases h : env.generate (renderPrompt simpleSystemPrompt [] query) with
  | ok ans =>
    refine ⟨rfl, ?_⟩
    intro r hr
    rw [Except.ok.injEq] at hr
    rw [← hr]
    exact ⟨rfl, rfl, rfl⟩
  | error e =>
    refine ⟨rfl, ?_⟩
    intro r hr
    exact absurd hr (by simp)

/-- C2 witness: on a concrete environment the bypass result exists and has
the fixed empty-sources, zero-confidence, ungrounded shape. -/
theorem no_rag_bypass_shape_check :
    ∃ r, (generate_answer okEnv "q" [] none false false false).1 = Except.ok r ∧
      r.sources = [] ∧ r.confidence = 0 ∧ r.is_grounded = false := by
  refine ⟨{ answer := "YES", sources := [], confidence := 0,
            is_grounded := false, contexts := [] }, rfl, ?_⟩
  exact (no_rag_bypass_shape okEnv "q" [] none false false).2 _ rfl

/-- C3: the reranker keeps at most five passages, in non-increasing order of
relevance score, each carrying `relevanceScore = logit` of the scorer on its
content; the source records derived from them in `generate_answer` are in
non-increasing `relevance_score` order and carry exactly those logits. -/
theorem rerank_top5_sorted (scorer : String → String → ℚ) (query : String) (docs : List Doc) :
    (rerankDocs scorer query docs).1.length ≤ 5 ∧
    (rerankDocs scorer query docs).1.Pairwise scoreGE ∧
    (∀ d ∈ (rerankDocs scorer query docs).1,
      d.relevance_score = some (scorer query d.content)) ∧
    ((rerankDocs scorer query docs).1.map syncSourceOf).Pairwise
      (fun a b => b.relevance_score ≤ a.relevance_score) ∧
    ((rerankDocs scorer query docs).1.map syncSourceOf).map
        (fun s => s.relevance_score) =
      (rerankDocs scorer query docs).1.map (fun d => scorer query d.content) := by
  have hmem : ∀ d ∈ (rerankDocs scorer query docs).1,
      d.relevance_score = some (scorer query d.content) := by
    intro d hd
    have h1 : d ∈ sortDescRel
        (docs.map (fun x => { x with relevance_score := some (scorer query x.content) })) :=
      List.mem_of_mem_take hd
    have h2 := mem_sortDescRel h1
    rcases List.mem_map.mp h2 with ⟨x, _, hx⟩
    rw [← hx]
  have hpair : (rerankDocs scorer query docs).1.Pairwise scoreGE :=
    (pairwise_sortDescRel _).sublist (List.take_sublist _ _)
  refine ⟨?_, hpair, hmem, ?_, ?_⟩
  · exact List.length_take_le _ _
  · rw [List.pairwise_map]
    exact hpair.imp (fun h => h)
  · rw [List.map_map]
    refine List.map_congr_left ?_
    intro d hd
    show relScore d = scorer query d.content
    rw [relScore, hmem d hd, Option.getD_some]

/-- C3 witness: on a concrete scorer and passage list, the kept passage
carries the scorer's logit as its relevance score. -/
theorem rerank_top5_sorted_check :
    ({ content := "a", relevance_score := some 1 } : Doc).relevance_score = some (1 : ℚ) :=
  (rerank_top5_sorted (fun _ _ => (1 : ℚ)) "q" [{ content := "a" }]).2.2.1
    { content := "a", relevance_score := some 1 } (by decide)

theorem lowerChar_space {c : Char} (hc : isSpaceChar c = true) : lowerChar c = c := by
  unfold isSpaceChar at hc
  simp only [Bool.or_eq_true, decide_eq_true_eq] at hc
  rcases hc with ((h | h) | h) | h <;> rw [h] <;> decide

theorem space_lower_ne {c d : Char} (hc : isSpaceChar c = true) (hd : isSpaceChar d = false) :
    lowerChar c ≠ d := by
  rw [lowerChar_space hc]
  intro h
  rw [h] at hc
  rw [hc] at hd
  exact Bool.noConfusion hd

/-- Dropping a leading whitespace run cannot destroy an occurrence of a
pattern whose first character is not whitespace (in the lower-cased view). -/
theorem infix_lower_dropWhile (h : Char) (tl : List Char) (hh : isSpaceChar h = false) :
    ∀ l : List Char,
      ((h :: tl) <:+: toLowerL (l.dropWhile isSpaceChar)) ↔ ((h :: tl) <:+: toLowerL l) := by
  intro l
  constructor
  · intro hin
    have hs : toLowerL (l.dropWhile isSpaceChar) <:+ toLowerL l :=
      (List.dropWhile_suffix isSpaceChar).map lowerChar
    exact hin.trans hs.isInfix
  · induction l with
    | nil => intro hin; simpa using hin
    | cons c t ih =>
      intro hin
      rw [List.dropWhile_cons]
      by_cases hc : isSpaceChar c
      · simp only [if_pos hc]
        apply ih
        simp only [toLowerL, List.map_cons] at hin
        rcases List.infix_cons_iff.mp hin with hpre | hinf
        · exfalso
          rcases hpre with ⟨s, hs⟩
          simp only [List.cons_append] at hs
          exact space_lower_ne hc hh ((List.cons.inj hs).1).symm
        · exact hinf
      · simp only [if_neg hc]
        exact hin

theorem toLowerL_reverse (l : List Char) : toLowerL l.reverse = (toLowerL l).reverse := by
  simp [toLowerL]

theorem yes_rev_iff (x : List Char) :
    (['y', 'e', 's'] <:+: x.reverse) ↔ (['s', 'e', 'y'] <:+: x) := by
  simpa using @List.reverse_infix Char ['s', 'e', 'y'] x

theorem sey_rev_iff (x : List Char) :
    (['s', 'e', 'y'] <:+: x.reverse) ↔ (['y', 'e', 's'] <:+: x) := by
  simpa using @List.reverse_infix Char ['y', 'e', 's'] x

theorem yes_infix_dropTrail (l : List Char) :
    (['y', 'e', 's'] <:+: toLowerL (dropTrailSpace l)) ↔ (['y', 'e', 's'] <:+: toLowerL l) := by
  unfold dropTrailSpace
  rw [toLowerL_reverse, yes_rev_iff,
    infix_lower_dropWhile 's' ['e', 'y'] (by decide) l.reverse,
    toLowerL_reverse, sey_rev_iff]

/-- Stripping surrounding whitespace does not change whether the lower-cased
text contains `"yes"`. -/
theorem yes_strip_invariant (l : List Char) :
    (['y', 'e', 's'] <:+: toLowerL (stripL l)) ↔ (['y', 'e', 's'] <:+: toLowerL l) := by
  unfold stripL
  rw [yes_infix_dropTrail, infix_lower_dropWhile 'y' ['e', 's'] (by decide) l]

/-- C4: the grounding validator returns `false` for empty context with no
Generator call; for non-empty context it performs exactly one Generator call
and returns `true` iff the response case-insensitively contains `"yes"`; a
Generator failure yields `false` (the `Bool` result type cannot propagate
the error). -/
theorem grounding_validator_spec (env : Env) (answer : String) (context : List Doc) :
    validate_answer env answer [] = (false, []) ∧
    (context ≠ [] →
      (validate_answer env answer context).2 =
        [ECall.generate (validationPromptText (contextText context) answer)] ∧
      (∀ r, env.generate (validationPromptText (contextText context) answer) = Except.ok r →
        ((validate_answer env answer context).1 = true ↔
          ['y', 'e', 's'] <:+: toLowerL r.data)) ∧
      (∀ e, env.generate (validationPromptText (contextText context) answer) = Except.error e →
        (validate_answer env answer context).1 = false)) := by
  refine ⟨by simp [validate_answer], ?_⟩
  intro hne
  unfold validate_answer
  rw [if_neg hne]
  cases h : env.generate (validationPromptText (contextText context) answer) with
  | ok r =>
    refine ⟨rfl, ?_, ?_⟩
    · intro r' hr'
      rw [Except.ok.injEq] at hr'
      rw [← hr']
      show decide (['y', 'e', 's'] <:+: toLowerL (stripL r.data)) = true ↔
        ['y', 'e', 's'] <:+: toLowerL r.data
      simp only [decide_eq_true_eq]
      exact yes_strip_invariant r.data
    · intro e he
      exact absurd he (by simp)
  | error e =>
    refine ⟨rfl, ?_, fun _ _ => rfl⟩
    intro r' hr'
    exact absurd hr' (by simp)

/-- C4 witness: with a generator answering `"YES"` on a non-empty context,
the validator result is characterized by containment of `"yes"` in the
lower-cased response. -/
theorem grounding_validator_check :
    (validate_answer okEnv "a" [{ content := "ctx" }]).1 = true ↔
      ['y', 'e', 's'] <:+: toLowerL "YES".data :=
  ((grounding_validator_spec okEnv "a" [{ content := "ctx" }]).2 (by simp)).2.1 "YES" rfl

theorem countP_chunkEvents_sources (c : Chunk) :
    (chunkEvents c).countP isSourcesEvent = if hasCtx c then 1 else 0 := by
  cases hc : c.context <;> cases ha : c.answer <;>
    simp [chunkEvents, hasCtx, hc, ha, isSourcesEvent, List.countP_cons]

theorem countP_chunksEvents_sources : ∀ l : List Chunk,
    (chunksEvents l).countP isSourcesEvent = l.countP hasCtx := by
  intro l
  induction l with
  | nil => simp [chunksEvents]
  | cons c rest ih =>
    show (chunkEvents c ++ chunksEvents rest).countP isSourcesEvent = _
    rw [List.countP_append, countP_chunkEvents_sources, ih, List.countP_cons]
    cases h : hasCtx c <;> simp [h]
    omega

theorem countP_chunkEvents_error (c : Chunk) :
    (chunkEvents c).countP isErrorEvent = 0 := by
  cases hc : c.context <;> cases ha : c.answer <;>
    simp [chunkEvents, hc, ha, isErrorEvent, List.countP_cons]

theorem countP_chunksEvents_error : ∀ l : List Chunk,
    (chunksEvents l).countP isErrorEvent = 0 := by
  intro l
  induction l with
  | nil => simp [chunksEvents]
  | cons c rest ih =>
    show (chunkEvents c ++ chunksEvents rest).countP isErrorEvent = 0
    rw [List.countP_append, countP_chunkEvents_error, ih]

theorem done_not_mem_chunkEvents (c : Chunk) : StreamEvent.done ∉ chunkEvents c := by
  cases hc : c.context <;> cases ha : c.answer <;> simp [chunkEvents, hc, ha]

theorem done_not_mem_chunksEvents : ∀ l : List Chunk, StreamEvent.done ∉ chunksEvents l := by
  intro l
  induction l with
  | nil => simp [chunksEvents]
  | cons c rest ih =>
    show StreamEvent.done ∉ chunkEvents c ++ chunksEvents rest
    rw [List.mem_append]
    rintro (h | h)
    · exact done_not_mem_chunkEvents c h
    · exact ih h

theorem all_noSources_chunksEvents : ∀ l : List Chunk,
    l.all (fun x => x.context.isNone) = true →
    (chunksEvents l).all (fun x => !isSourcesEvent x) = true := by
  intro l
  induction l with
  | nil => intro _; rfl
  | cons c rest ih =>
    intro h
    rw [List.all_cons, Bool.and_eq_true] at h
    show (chunkEvents c ++ chunksEvents rest).all (fun x => !isSourcesEvent x) = true
    rw [List.all_append, Bool.and_eq_true]
    refine ⟨?_, ih h.2⟩
    have hc : c.context = none := Option.isNone_iff_eq_none.mp h.1
    cases ha : c.answer <;> simp [chunkEvents, hc, ha, isSourcesEvent]

theorem noSourcesAfterToken_append : ∀ {a b : List StreamEvent},
    noSourcesAfterToken a = true → noSourcesAfterToken b = true →
    (∀ e ∈ a, isTokenEvent e = true → b.all (fun x => !isSourcesEvent x) = true) →
    noSourcesAfterToken (a ++ b) = true := by
  intro a
  induction a with
  | nil => intro b _ hb _; simpa using hb
  | cons e rest ih =>
    intro b ha hb hab
    simp only [noSourcesAfterToken, Bool.and_eq_true] at ha
    rw [List.cons_append]
    show ((if isTokenEvent e then ((rest ++ b).all fun x => !isSourcesEvent x) else true) &&
      noSourcesAfterToken (rest ++ b)) = true
    rw [Bool.and_eq_true]
    constructor
    · by_cases ht : isTokenEvent e = true
      · rw [if_pos ht, List.all_append, Bool.and_eq_true]
        refine ⟨?_, hab e (List.mem_cons_self e rest) ht⟩
        have := ha.1
        rwa [if_pos ht] at this
      · rw [if_neg ht]
    · exact ih ha.2 hb (fun x hx => hab x (List.mem_cons_of_mem e hx))

theorem noSourcesAfterToken_chunkEvents (c : Chunk) :
    noSourcesAfterToken (chunkEvents c) = true := by
  cases hc : c.context <;> cases ha : c.answer <;>
    simp [chunkEvents, hc, ha, noSourcesAfterToken, isTokenEvent, isSourcesEvent]

theorem token_mem_chunkEvents_answer {c : Chunk} {e : StreamEvent}
    (he : e ∈ chunkEvents c) (ht : isTokenEvent e = true) : c.answer.isSome = true := by
  cases ha : c.answer with
  | some t => rfl
  | none =>
    exfalso
    cases hc : c.context with
    | none => simp [chunkEvents, hc, ha] at he
    | some docs =>
      simp [chunkEvents, hc, ha] at he
      rw [he] at ht
      exact Bool.noConfusion ht

theorem noSourcesAfterToken_chunksEvents : ∀ l : List Chunk, ctxBeforeAns l = true →
    noSourcesAfterToken (chunksEvents l) = true := by
  intro l
  induction l with
  | nil => intro _; rfl
  | cons c rest ih =>
    intro h
    simp only [ctxBeforeAns, Bool.and_eq_true] at h
    show noSourcesAfterToken (chunkEvents c ++ chunksEvents rest) = true
    apply noSourcesAfterToken_append (noSourcesAfterToken_chunkEvents c) (ih h.2)
    intro e he ht
    have hans := token_mem_chunkEvents_answer he ht
    have h1 := h.1
    rw [if_pos hans] at h1
    exact all_noSources_chunksEvents rest h1

/-- C5 counterexample: the claim fails as stated.  A chain that raises before
retrieval completes produces the event sequence `[Error]`, which contains no
`Sources` event; and a successful stream ends with its last `Token` — no
`Done` event is ever emitted. -/
theorem stream_events_refuted :
    (streamEvents { chunks := [], failure := some "Connection refused" }).countP
      isSourcesEvent = 0 ∧
    (streamEvents { chunks := [{ context := some [{ content := "c" }] },
        { answer := some "Hi" }], failure := none }).getLast? =
      some (StreamEvent.token "Hi") := by
  exact ⟨rfl, rfl⟩

/-- C5 amended: for chain streams yielding at most one context chunk, with
every context chunk preceding every answer chunk, the event sequence contains
at most one `Sources` event — exactly one iff a context chunk was yielded (a
stream failing before retrieval yields none) — every `Sources` event precedes
every `Token` event, no `Done` event is ever emitted (on success the stream
closes after its last `Token`), and an `Error` event occurs iff the
underlying stream fails, in which case it is the single final event. -/
theorem stream_events_spec (st : ChainStream)
    (h1 : st.chunks.countP hasCtx ≤ 1)
    (h2 : ctxBeforeAns st.chunks = true) :
    (streamEvents st).countP isSourcesEvent ≤ 1 ∧
    ((streamEvents st).countP isSourcesEvent = 1 ↔ st.chunks.any hasCtx = true) ∧
    noSourcesAfterToken (streamEvents st) = true ∧
    StreamEvent.done ∉ streamEvents st ∧
    (streamEvents st).countP isErrorEvent = (if st.failure.isSome then 1 else 0) ∧
    (∀ e, st.failure = some e →
      (streamEvents st).getLast? = some (StreamEvent.error e)) := by
  have htail0 : (match st.failure with
      | some e => [StreamEvent.error e]
      | none => ([] : List StreamEvent)).countP isSourcesEvent = 0 := by
    cases st.failure <;> simp [isSourcesEvent, List.countP_cons]
  have hsrc : (streamEvents st).countP isSourcesEvent = st.chunks.countP hasCtx := by
    unfold streamEvents
    rw [List.countP_append, countP_chunksEvents_sources, htail0]
    omega
  refine ⟨?_, ?_, ?_, ?_, ?_, ?_⟩
  · rw [hsrc]; exact h1
  · rw [hsrc]
    constructor
    · intro h
      have hpos : 0 < st.chunks.countP hasCtx := by omega
      rcases List.countP_pos_iff.mp hpos with ⟨c, hc, hp⟩
      exact List.any_eq_true.mpr ⟨c, hc, hp⟩
    · intro h
      rcases List.any_eq_true.mp h with ⟨c, hc, hp⟩
      have hpos : 0 < st.chunks.countP hasCtx := List.countP_pos_iff.mpr ⟨c, hc, hp⟩
      omega
  · unfold streamEvents
    apply noSourcesAfterToken_append (noSourcesAfterToken_chunksEvents st.chunks h2)
    · cases st.failure <;> rfl
    · intro e _ _
      cases st.failure <;> simp [isSourcesEvent]
  · unfold streamEvents
    rw [List.mem_append]
    rintro (h | h)
    · exact done_not_mem_chunksEvents st.chunks h
    · cases hf : st.failure <;> rw [hf] at h <;> simp at h
  · unfold streamEvents
    rw [List.countP_append, countP_chunksEvents_error]
    cases st.failure <;> simp [isErrorEvent, List.countP_cons]
  · intro e he
    unfold streamEvents
    rw [he]
    exact List.getLast?_concat _

/-- C5 witness: a well-formed stream (one context chunk, then one answer
chunk, no failure) has exactly one `Sources` event and no `Sources` event
after a `Token` event. -/
theorem stream_events_check :
    (streamEvents streamWF).countP isSourcesEvent = 1 ∧
    noSourcesAfterToken (streamEvents streamWF) = true := by
  have h := stream_events_spec streamWF (by decide) (by decide)
  exact ⟨h.2.1.mpr (by decide), h.2.2.1⟩

/-- Unfolding of `generate_answer` on empty history, no filter, default
strategy flags, retrieval enabled. -/
theorem generate_answer_plain_eq (env : Env) (q : String) :
    generate_answer env q [] none false false true =
      (match env.generate (renderPrompt (qaSystemPrompt (contextText
          (rerankDocs env.rerankScore q (env.search none (env.embed q))).1)) [] q) with
       | Except.error e =>
         (Except.error (wrapError e),
          [ECall.embed q, ECall.search (env.embed q)] ++
            (rerankDocs env.rerankScore q (env.search none (env.embed q))).2 ++
            [ECall.generate (renderPrompt (qaSystemPrompt (contextText
              (rerankDocs env.rerankScore q (env.search none (env.embed q))).1)) [] q)])
       | Except.ok answer =>
         (Except.ok
            { answer := answer
              sources :=
                (rerankDocs env.rerankScore q (env.search none (env.embed q))).1.map
                  syncSourceOf
              confidence := calculate_confidence
                (rerankDocs env.rerankScore q (env.search none (env.embed q))).1
              is_grounded := (validate_answer env answer
                (rerankDocs env.rerankScore q (env.search none (env.embed q))).1).1
              contexts :=
                (rerankDocs env.rerankScore q (env.search none (env.embed q))).1.map
                  (fun d => d.content) },
          [ECall.embed q, ECall.search (env.embed q)] ++
            (rerankDocs env.rerankScore q (env.search none (env.embed q))).2 ++
            [ECall.generate (renderPrompt (qaSystemPrompt (contextText
              (rerankDocs env.rerankScore q (env.search none (env.embed q))).1)) [] q)] ++
            (validate_answer env answer
              (rerankDocs env.rerankScore q (env.search none (env.embed q))).1).2)) := rfl

/-- On the plain path the call log starts with the Embedder call on the query
and the VectorIndex search. -/
theorem generate_answer_log_prefix (env : Env) (q : String) :
    ∃ rest, (generate_answer env q [] none false false true).2 =
      ECall.embed q :: ECall.search (env.embed q) :: rest := by
  rw [generate_answer_plain_eq]
  cases h : env.generate (renderPrompt (qaSystemPrompt (contextText
      (rerankDocs env.rerankScore q (env.search none (env.embed q))).1)) [] q) with
  | ok ans =>
    refine ⟨(rerankDocs env.rerankScore q (env.search none (env.embed q))).2 ++
      ECall.generate (renderPrompt (qaSystemPrompt (contextText
        (rerankDocs env.rerankScore q (env.search none (env.embed q))).1)) [] q) ::
      (validate_answer env ans
        (rerankDocs env.rerankScore q (env.search none (env.embed q))).1).2, ?_⟩
    simp
  | error e =>
    refine ⟨(rerankDocs env.rerankScore q (env.search none (env.embed q))).2 ++
      [ECall.generate (renderPrompt (qaSystemPrompt (contextText
        (rerankDocs env.rerankScore q (env.search none (env.embed q))).1)) [] q)], ?_⟩
    simp

/-- C6 counterexample: an Ask request with an empty (but present) query
string is not rejected — it passes request validation and the pipeline
issues external calls, beginning with an Embedder call on the empty
query. -/
theorem empty_query_not_rejected :
    parseAskRequest { query := some "" } = Except.ok { query := "" } ∧
    ECall.embed "" ∈ (ask_question okEnv { query := some "" }).2 := by
  refine ⟨rfl, ?_⟩
  have h : (ask_question okEnv { query := some "" }).2 =
      (generate_answer okEnv "" [] none false false true).2 := rfl
  rw [h]
  rcases generate_answer_log_prefix okEnv "" with ⟨rest, hr⟩
  rw [hr]
  simp

/-- C6 amended: a request missing the `query` field is rejected with a
`ValidationError` before any external call; an empty-string query is not
rejected — it passes validation and the pipeline proceeds, issuing external
calls (beginning with an Embedder call on the empty query). -/
theorem empty_query_validation_amended :
    (∀ (env : Env) (raw : RawAskRequest), raw.query = none →
      ask_question env raw = (Except.error "ValidationError: field required: query", [])) ∧
    parseAskRequest { query := some "" } = Except.ok { query := "" } ∧
    (∀ env : Env, ECall.embed "" ∈ (ask_question env { query := some "" }).2) := by
  refine ⟨?_, rfl, ?_⟩
  · intro env raw h
    unfold ask_question parseAskRequest
    rw [h]
  · intro env
    have h : (ask_question env { query := some "" }).2 =
        (generate_answer env "" [] none false false true).2 := rfl
    rw [h]
    rcases generate_answer_log_prefix env "" with ⟨rest, hr⟩
    rw [hr]
    simp

/-- C6 witness: a request with no `query` field is rejected with no external
call performed. -/
theorem empty_query_validation_check :
    ask_question okEnv { query := none } =
      (Except.error "ValidationError: field required: query", []) :=
  empty_query_validation_amended.1 okEnv { query := none } rfl

/-- C7: any passage key occurring in the per-paraphrase result lists occurs
exactly once in the merged result, and the surviving passage carries the
highest relevance score observed for that key across all input lists. -/
theorem merge_dedup_max (lists : List (List Doc)) (k : Option String × Option Nat × String)
    (h : ∃ x ∈ joinL lists, passKey x = k) :
    countKey k (mergePassages lists) = 1 ∧
    ∃ y ∈ mergePassages lists, passKey y = k ∧
      (∀ x ∈ joinL lists, passKey x = k → relScore x ≤ relScore y) ∧
      (∃ x ∈ joinL lists, passKey x = k ∧ relScore x = relScore y) := by
  have hcount : countKey k (mergePassages lists) = 1 := by
    unfold mergePassages
    rw [countKey_mergeInto k (joinL lists) [] keyUnique_nil]
    have hk : hasKey k (joinL lists) = true := by
      rcases h with ⟨x, hx, hxk⟩
      exact List.any_eq_true.mpr ⟨x, hx, by simp [hxk]⟩
    simp [countKey, hk]
  refine ⟨hcount, ?_⟩
  have hpos : 0 < (mergePassages lists).countP (fun d => decide (passKey d = k)) := by
    have : countKey k (mergePassages lists) =
        (mergePassages lists).countP (fun d => decide (passKey d = k)) := rfl
    omega
  rcases List.countP_pos_iff.mp hpos with ⟨y, hy, hyk⟩
  rw [decide_eq_true_eq] at hyk
  have hymem : y ∈ joinL lists := by
    rcases mem_mergeInto hy with h' | h'
    · simp at h'
    · exact h'
  refine ⟨y, hy, hyk, ?_, ⟨y, hymem, hyk, rfl⟩⟩
  intro x hx hxk
  exact mergeInto_max (joinL lists) [] keyUnique_nil y hy x (Or.inr hx)
    (hxk.trans hyk.symm)

/-- C7 witness: merging two singleton lists that share the key
`(a.pdf, 1, t)` with scores `1` and `3` yields exactly one passage for that
key. -/
theorem merge_dedup_check :
    countKey (some "a.pdf", some 1, "t") (mergePassages [[mergeDocA], [mergeDocB]]) = 1 :=
  (merge_dedup_max [[mergeDocA], [mergeDocB]] (some "a.pdf", some 1, "t")
    ⟨mergeDocA, by decide, by decide⟩).1

/-- C8: with `enableHyde = true` the retrieval stage dispatches to the HyDE
chain, which performs exactly one Generator call on the HyDE prompt, one
Embedder call whose input is the generated paragraph (not the query text),
and one VectorIndex search with the resulting vector. -/
theorem hyde_retrieval_calls (env : Env) (filters : Option (List (String × String)))
    (eqe : Bool) (q para : String)
    (h : env.generate (hydePromptText q) = Except.ok para) :
    retrieveByStrategy env filters eqe true q = hydeRetrieve env filters q ∧
    hydeRetrieve env filters q =
      (Except.ok (env.search filters (env.embed para)),
       [ECall.generate (hydePromptText q), ECall.embed para,
        ECall.search (env.embed para)]) := by
  constructor
  · rfl
  · unfold hydeRetrieve
    rw [h]
    rfl

/-- C8 witness: on a concrete environment producing the paragraph `"YES"`,
the HyDE retrieval performs exactly the generate, embed-paragraph, search
call sequence. -/
theorem hyde_retrieval_check :
    hydeRetrieve okEnv none "Explain clause 4" =
      (Except.ok (okEnv.search none (okEnv.embed "YES")),
       [ECall.generate (hydePromptText "Explain clause 4"), ECall.embed "YES",
        ECall.search (okEnv.embed "YES")]) :=
  (hyde_retrieval_calls okEnv none false "Explain clause 4" "YES" rfl).2

/-- C9: the `AskRequest` model is determined by its four fields `query`,
`conversation_id`, `enable_query_expansion`, `enable_hyde` (no field can
carry history, a filter or a `use_rag` flag), and the `/ask` handler invokes
`generate_answer` with empty chat history, no filter and retrieval
enabled. -/
theorem ask_endpoint_shape :
    (∀ u v : AskRequest, u.query = v.query → u.conversation_id = v.conversation_id →
      u.enable_query_expansion = v.enable_query_expansion →
      u.enable_hyde = v.enable_hyde → u = v) ∧
    (∀ (env : Env) (req : AskRequest),
      (ask_question_handler env req).2 =
        (generate_answer env req.query [] none req.enable_query_expansion
          req.enable_hyde true).2 ∧
      (ask_question_handler env req).1 =
        (match (generate_answer env req.query [] none req.enable_query_expansion
            req.enable_hyde true).1 with
         | Except.ok d => Except.ok d
         | Except.error e => Except.error ("HTTP 500: " ++ e))) := by
  constructor
  · intro u v h1 h2 h3 h4
    cases u
    cases v
    simp_all
  · intro env req
    exact ⟨rfl, rfl⟩

/-- C9 witness: two requests agreeing on the four fields are equal. -/
theorem ask_endpoint_check :
    ({ query := "q" } : AskRequest) = { query := "q" } :=
  ask_endpoint_shape.1 { query := "q" } { query := "q" } rfl rfl rfl rfl

/-- C10: a streaming source item carries exactly the raw stored source path,
the page, and the snippet (those three fields determine it — there is no
citation and no relevance-score field), while the synchronous source record
carries the basename, a citation built from it, the snippet and the
relevance score; on a path-valued source the streaming item keeps the path
while the synchronous record keeps only the basename. -/
theorem stream_source_fields :
    (∀ d : Doc, streamSourceOf d =
      { source := d.source.getD "unknown", page := d.page.getD 0,
        snippet := snippetOf d.content }) ∧
    (∀ u v : StreamSource, u.source = v.source → u.page = v.page →
      u.snippet = v.snippet → u = v) ∧
    (∀ docs : List Doc, chunkEvents { context := some docs, answer := none } =
      [StreamEvent.sources (docs.map streamSourceOf)]) ∧
    (∀ d : Doc, (syncSourceOf d).source = basename (d.source.getD "unknown") ∧
      (syncSourceOf d).citation =
        basename (d.source.getD "unknown") ++ " (p. " ++ toString (d.page.getD 0) ++ ")" ∧
      (syncSourceOf d).relevance_score = relScore d ∧
      (syncSourceOf d).snippet = snippetOf d.content) ∧
    ((streamSourceOf { content := "c", source := some "docs/contract.pdf" }).source =
        "docs/contract.pdf" ∧
      (syncSourceOf { content := "c", source := some "docs/contract.pdf" }).source =
        "contract.pdf") := by
  refine ⟨fun d => rfl, ?_, fun docs => rfl, fun d => ⟨rfl, rfl, rfl, rfl⟩, ?_, ?_⟩
  · intro u v h1 h2 h3
    cases u
    cases v
    simp_all
  · rfl
  · decide

/-- C10 witness: two streaming source items agreeing on source, page and
snippet are equal. -/
theorem stream_source_check :
    ({ source := "s", page := 1, snippet := "x" } : StreamSource) =
      { source := "s", page := 1, snippet := "x" } :=
  stream_source_fields.2.1 { source := "s", page := 1, snippet := "x" }
    { source := "s", page := 1, snippet := "x" } rfl rfl rfl

end RagAssistant
